import Mathlib

/-!
Verification development for `task_1_starter_code.py`.

The script walks a directory of image files, preprocesses each image
(cropping it to the bounding box of its visible area), and lays the images
out on A4 PDF pages with a simple sequential row layout.  This file gives a
shallow embedding of the script's pure computational content:

* The preprocessing stage (`get_bounding_box_of_visible_area` and
  `preprocess_image`, lines 17–57) is embedded faithfully as a *fallible*
  pipeline over raw opened images (`RawPILImage`): `Image.open` is lazy, so
  a file can still raise after opening — `image.getchannel('A')` raises
  `ValueError` for a `'P'`-mode image with transparency (Pillow has no `'A'`
  band in a `'P'` image, yet line 22 admits that mode), and decoding the
  pixel data at `getchannel`/`crop` can raise for corrupt data.  Both
  escape `preprocess_image`, whose `try` covers only `Image.open`; the
  outer handler at lines 127–128 then skips the file without touching any
  layout state.  `none` results model these escaping exceptions.
* The layout loop is modelled over the non-raising fragment: `PILImage`
  is an image on which preprocessing returns (its `hasTransparencyChannel`
  is the line-22 test, its `alphaBbox` the value of
  `image.getchannel('A').getbbox()`, where `none` models Python's `None`
  for a fully transparent image), and `preprocessed` is the value
  `preprocess_image` computes there.  `preprocessed_agrees` proves the two
  pipelines equal on every input on which no exception escapes; since a
  raising iteration mutates no layout state, the layout model ranges
  exactly over the files the real run places.
* An input file is a filename (a list of characters, compared by code point
  exactly as Python compares `str`) together with the decoded image, or
  `none` when `Image.open` raises.
* Real arithmetic of the script (done in Python floats) is modelled in `ℚ`.
* The ReportLab canvas is modelled by the data the claims are about: the
  list of `drawImage` calls (placements), the page counter (`showPage`
  increments it; `save` flushes the final page, so the page count of the
  finished document is the counter plus one), and a `saved` flag set by
  `c.save()`.
* `sorted()` on filenames is modelled by a stable ascending insertion sort
  under code-point lexicographic order, which is exactly the specification
  of Python's `sorted` on `str`.
-/

namespace ImagePack

/-- Model of `reportlab.lib.units.inch`: 72 points. -/
def inch : ℚ := 72

/-- Model of `reportlab.lib.units.mm`: `inch / 25.4` points. -/
def mm : ℚ := inch / 25.4

/-- Model of `reportlab.lib.pagesizes.A4 = (210*mm, 297*mm)`. -/
def A4 : ℚ × ℚ := (210 * mm, 297 * mm)

/-- Model of `reportlab.lib.pagesizes.portrait`: smaller dimension first. -/
def portrait (pagesize : ℚ × ℚ) : ℚ × ℚ :=
  (min pagesize.1 pagesize.2, max pagesize.1 pagesize.2)

/-- `PAGE_SIZE = portrait(A4)` from the script's configuration section. -/
def PAGE_SIZE : ℚ × ℚ := portrait A4

/-- US letter page size `(8.5*inch, 11*inch)`, the page used by the spec's
Scenario B (8.5in × 11in, usable width 6.5in inside 1in margins). -/
def letterPage : ℚ × ℚ := (8.5 * inch, 11 * inch)

/-- Result of PIL's `getbbox` / argument of `crop`: `(left, upper, right, lower)`. -/
structure BBox where
  left : ℕ
  upper : ℕ
  right : ℕ
  lower : ℕ
deriving DecidableEq

/-- The image modes distinguished by the test at line 22 of the script. -/
inductive PILMode
  | RGBA
  | LA
  | P
  | other
deriving DecidableEq

/-- An image as `Image.open` returns it.  `Image.open` only parses the
header (lazy decode), so the mode, the claimed pixel size and the metadata
are available immediately, while the pixel data is decoded at the first
`load()` — triggered by `getchannel` or `crop` — which can itself raise
for truncated or corrupt data (`loadFails`).  `transparencyInInfo` models
`'transparency' in image.info`; `alphaBbox` models the value
`image.getchannel('A').getbbox()` would yield once the alpha channel
loads, with `none` for Python's `None` on a fully transparent image. -/
structure RawPILImage where
  width : ℕ
  height : ℕ
  mode : PILMode
  transparencyInInfo : Bool
  alphaBbox : Option BBox
  loadFails : Bool
deriving DecidableEq

/-- An entry of the input directory as the preprocessing stage sees it: a
filename and the result of `Image.open` (`none` when `Image.open` itself
raises — the one exception `preprocess_image` catches). -/
structure RawImageFile where
  name : List Char
  opened : Option RawPILImage
deriving DecidableEq

/-- Model of PIL's `Image.crop`: the cropped image has size
`(right - left, lower - upper)`.  (The script's later mode conversion at
lines 54–55 does not change the size, so it is not modelled.) -/
def crop (image : RawPILImage) (box : BBox) : RawPILImage :=
  { image with width := box.right - box.left, height := box.lower - box.upper }

/-- Model of `get_bounding_box_of_visible_area` (lines 17–29), including
its error paths: the result is `none` when an exception escapes.  When the
line-22 test holds, `image.getchannel('A')` is called: for a `'P'`-mode
image Pillow's bands are `('P',)`, so there is no `'A'` channel and
`getchannel` raises `ValueError`; otherwise `getchannel` loads the pixel
data, which raises for corrupt input (`loadFails`).  In the non-raising
cases the function returns `alpha.getbbox()` — or the full-image box when
the test fails — with the line-29 fallback from `None` to the full box. -/
def get_bounding_box_of_visible_area (image : RawPILImage) : Option BBox :=
  let bbox : Option (Option BBox) :=
    if image.mode = PILMode.RGBA ∨ image.mode = PILMode.LA ∨
        (image.mode = PILMode.P ∧ image.transparencyInInfo = true) then
      if image.mode = PILMode.P then
        none
      else if image.loadFails then
        none
      else
        some image.alphaBbox
    else
      some (some ⟨0, 0, image.width, image.height⟩)
  bbox.map (fun b => b.getD ⟨0, 0, image.width, image.height⟩)

/-- Model of `preprocess_image` (lines 32–57), including its error paths:
the `try` at lines 42–47 covers only `Image.open`, whose failure yields the
1×1 dummy `Image.new('RGB', (1, 1))`; an exception raised later — by
`getchannel('A')` inside the bounding-box helper, or by the pixel decode
that `crop` triggers at line 51 — escapes the function (`none`), to be
caught only by the loop-level handler of `generate_pdf` (lines 127–128),
which skips the file. -/
def preprocess_image (file : RawImageFile) : Option RawPILImage :=
  match file.opened with
  | none =>
    some { width := 1, height := 1, mode := PILMode.other,
           transparencyInInfo := false, alphaBbox := none, loadFails := false }
  | some image =>
    match get_bounding_box_of_visible_area image with
    | none => none
    | some bbox =>
      if image.loadFails then none
      else some (crop image bbox)

/-- A decoded PIL image of the *non-raising fragment*: the data the layout
loop sees for a file on which no exception escapes `preprocess_image`.
`hasTransparencyChannel` is the value of the line-22 test
`mode in ('RGBA','LA') or (mode == 'P' and 'transparency' in info)`;
`alphaBbox` is the value of `image.getchannel('A').getbbox()` (`none`
models Python `None`, returned when the alpha channel is empty).
`preprocessed_agrees` below proves this layout-side pipeline equal to
`preprocess_image` on every non-raising input. -/
structure PILImage where
  width : ℕ
  height : ℕ
  hasTransparencyChannel : Bool
  alphaBbox : Option BBox
deriving DecidableEq

/-- An entry of the input directory as the layout model sees it: a
filename (list of characters, as Python compares strings — by code point)
and the decoded image, where `none` means `Image.open` raises an exception
for this file (which `preprocess_image` absorbs into the 1×1 dummy). -/
structure ImageFile where
  name : List Char
  decoded : Option PILImage
deriving DecidableEq

/-- The bounding box `get_bounding_box_of_visible_area` computes when no
exception escapes it: `alpha.getbbox()` for images whose line-22 test
holds, otherwise the full-image box, with the `None`-to-full-box
fallback of line 29. -/
def visibleBBox (image : PILImage) : BBox :=
  let bbox : Option BBox :=
    if image.hasTransparencyChannel then image.alphaBbox
    else some ⟨0, 0, image.width, image.height⟩
  bbox.getD ⟨0, 0, image.width, image.height⟩

/-- The image `preprocess_image` returns when no exception escapes it: the
1×1 dummy `Image.new('RGB', (1, 1))` for a failed `Image.open`, otherwise
the image cropped to the bounding box of its visible area. -/
def preprocessed (file : ImageFile) : PILImage :=
  match file.decoded with
  | none => { width := 1, height := 1, hasTransparencyChannel := false, alphaBbox := none }
  | some image =>
    let bbox := visibleBBox image
    { image with width := bbox.right - bbox.left, height := bbox.lower - bbox.upper }

/-- The layout-side view of a raw input file: the filename together with
the line-22 test and the alpha bounding box of the opened image.  Used to
state that the two preprocessing pipelines agree on non-raising inputs. -/
def toImageFile (f : RawImageFile) : ImageFile :=
  ⟨f.name, f.opened.map (fun raw =>
    ⟨raw.width, raw.height,
      decide (raw.mode = PILMode.RGBA ∨ raw.mode = PILMode.LA ∨
        (raw.mode = PILMode.P ∧ raw.transparencyInInfo = true)),
      raw.alphaBbox⟩)⟩

/-- Python `str.lower` on a filename (character-wise; ASCII-faithful). -/
def lowerName (s : List Char) : List Char := s.map Char.toLower

/-- Python `f.lower().endswith(('.png', '.jpg', '.jpeg'))`: the filter the
script applies to directory entries. -/
def isImageFile (name : List Char) : Bool :=
  List.isSuffixOf ['.', 'p', 'n', 'g'] (lowerName name) ||
  List.isSuffixOf ['.', 'j', 'p', 'g'] (lowerName name) ||
  List.isSuffixOf ['.', 'j', 'p', 'e', 'g'] (lowerName name)

/-- Code-point lexicographic order on filenames: the order Python's
`sorted` uses on `str`. -/
def nameLe : List Char → List Char → Bool
  | [], _ => true
  | _ :: _, [] => false
  | a :: as, b :: bs => if a < b then true else if b < a then false else nameLe as bs

/-- Comparison of directory entries by filename, as `sorted(image_files)`
compares the filename strings. -/
def fileLe (a b : ImageFile) : Bool := nameLe a.name b.name

/-- Stable ascending insertion of an element into a sorted list. -/
def insertSorted (le : α → α → Bool) (a : α) : List α → List α
  | [] => [a]
  | b :: bs => if le a b then a :: b :: bs else b :: insertSorted le a bs

/-- Stable ascending insertion sort: the specification of Python's
`sorted` (stable, ascending under the given total order). -/
def sortBy (le : α → α → Bool) : List α → List α
  | [] => []
  | a :: as => insertSorted le a (sortBy le as)

/-- Model of line 73 of the script:
`sorted([f for f in os.listdir(input_dir) if f.lower().endswith((...))])`. -/
def sortedImageFiles (files : List ImageFile) : List ImageFile :=
  sortBy fileLe (files.filter (fun f => isImageFile f.name))

/-- One `drawImage` call: the image drawn on page `page` (0-based) with
bottom-left corner `(x, y)` and size `w × h` in points.  `srcW`/`srcH`
record the pixel size of the preprocessed source image the call scaled. -/
structure Placement where
  name : List Char
  page : ℕ
  x : ℚ
  y : ℚ
  w : ℚ
  h : ℚ
  srcW : ℕ
  srcH : ℕ
deriving DecidableEq

/-- The loop state of `generate_pdf`: the cursor variables `current_x`,
`current_y`, `max_row_height`, plus the canvas state (0-based index of the
page being drawn on, and the placements drawn so far in drawing order). -/
structure LayoutState where
  x : ℚ
  y : ℚ
  maxRowHeight : ℚ
  page : ℕ
  placements : List Placement
deriving DecidableEq

/-- The target size computed at lines 100–102 of `generate_pdf`: the
preprocessed image is drawn `target_width = 2*inch` wide, with
`target_height = img.height * target_width / img.width` (aspect-scaled to
the fixed 2-inch width). -/
def targetHeightOf (file : ImageFile) : ℚ :=
  ((preprocessed file).height : ℚ) * (2 * inch) / ((preprocessed file).width : ℚ)

/-- The row/page advance at lines 104–115 of `generate_pdf`: when the image
does not fit on the current row, move to the next row (drop `current_y` by
`max_row_height + 0.2*inch`, reset `current_x` and `max_row_height`), and
when the new row would cross the bottom margin, start a new page
(`c.showPage()`, cursor back to the top-left corner of the usable area). -/
def advanceCursor (page_width page_height target_width target_height : ℚ)
    (s : LayoutState) : LayoutState :=
  if page_width - inch < s.x + target_width then
    let s' : LayoutState :=
      { s with y := s.y - (s.maxRowHeight + (0.2 : ℚ) * inch), x := inch, maxRowHeight := 0 }
    if s'.y - target_height < inch then
      { s' with page := s'.page + 1, x := inch, y := page_height - inch }
    else s'
  else s

/-- One iteration of the layout loop of `generate_pdf` (lines 88–123):
preprocess the image, scale it to a 2-inch target width preserving aspect
ratio, advance the cursor (next row / new page) when the image does not fit
the current row, draw the image at `(current_x, current_y - target_height)`,
and update the cursor variables. -/
def placeImage (page_width page_height : ℚ) (s : LayoutState) (file : ImageFile) :
    LayoutState :=
  let img := preprocessed file
  let target_width : ℚ := 2 * inch
  let target_height : ℚ := targetHeightOf file
  let s1 : LayoutState := advanceCursor page_width page_height target_width target_height s
  let p : Placement :=
    { name := file.name, page := s1.page, x := s1.x, y := s1.y - target_height,
      w := target_width, h := target_height, srcW := img.width, srcH := img.height }
  { s1 with
    placements := s1.placements ++ [p],
    x := s1.x + (target_width + (0.2 : ℚ) * inch),
    maxRowHeight := max s1.maxRowHeight target_height }

/-- The observable outcome of `generate_pdf`: the `drawImage` calls in
drawing order, the number of pages of the finished document, and whether
`c.save()` was reached. -/
structure PDFResult where
  placements : List Placement
  pageCount : ℕ
  saved : Bool
deriving DecidableEq

/-- Model of `generate_pdf(input_dir, output_pdf_path, page_size)`.  The
input directory is modelled by its listing `files`.  With no image files it
draws the "No images found." string on the first page and saves (a valid
one-page document); otherwise it runs the layout loop over the sorted image
files starting from cursor `(inch, page_height - inch)` and saves, the
final page being flushed by `save`, so the document has `page + 1` pages. -/
def generate_pdf (files : List ImageFile) (page_size : ℚ × ℚ) : PDFResult :=
  let page_width := page_size.1
  let page_height := page_size.2
  let image_files := sortedImageFiles files
  if image_files.isEmpty then
    { placements := [], pageCount := 1, saved := true }
  else
    let init : LayoutState :=
      { x := inch, y := page_height - inch, maxRowHeight := 0, page := 0, placements := [] }
    let final := image_files.foldl (placeImage page_width page_height) init
    { placements := final.placements, pageCount := final.page + 1, saved := true }

/-- Two placements intersect when they are on the same page and their
axis-aligned rectangles overlap with positive area in both axes. -/
def overlaps (p q : Placement) : Prop :=
  p.page = q.page ∧
  p.x < q.x + q.w ∧ q.x < p.x + p.w ∧
  p.y < q.y + q.h ∧ q.y < p.y + p.h

/-! ### Properties of the filename order and of the sort -/

lemma nameLe_total : ∀ a b : List Char, nameLe a b = true ∨ nameLe b a = true := by
  intro a
  induction a with
  | nil => intro b; left; rfl
  | cons x xs ih =>
    intro b
    cases b with
    | nil => right; rfl
    | cons y ys =>
      simp only [nameLe]
      rcases lt_trichotomy x y with h | h | h
      · left; simp [if_pos h]
      · subst h
        simp only [if_neg (lt_irrefl x)]
        exact ih ys
      · right; simp [if_pos h]

lemma nameLe_trans : ∀ a b c : List Char,
    nameLe a b = true → nameLe b c = true → nameLe a c = true := by
  intro a
  induction a with
  | nil => intro b c _ _; rfl
  | cons x xs ih =>
    intro b c hab hbc
    cases b with
    | nil => simp [nameLe] at hab
    | cons y ys =>
      cases c with
      | nil => simp [nameLe] at hbc
      | cons z zs =>
        simp only [nameLe] at hab hbc ⊢
        by_cases hxy : x < y
        · by_cases hxz : x < z
          · simp [if_pos hxz]
          · by_cases hyz : y < z
            · exact absurd (lt_trans hxy hyz) hxz
            · simp only [if_neg hyz] at hbc
              by_cases hzy : z < y
              · simp only [if_pos hzy] at hbc
                exact absurd hbc (by simp)
              · have hyz' : y = z := le_antisymm (not_lt.mp hzy) (not_lt.mp hyz)
                subst hyz'
                exact absurd hxy hxz
        · simp only [if_neg hxy] at hab
          by_cases hyx : y < x
          · simp only [if_pos hyx] at hab
            exact absurd hab (by simp)
          · have hxy' : x = y := le_antisymm (not_lt.mp hyx) (not_lt.mp hxy)
            subst hxy'
            simp only [if_neg (lt_irrefl x)] at hab
            by_cases hxz : x < z
            · simp [if_pos hxz]
            · simp only [if_neg hxz] at hbc ⊢
              by_cases hzx : z < x
              · simp only [if_pos hzx] at hbc
                exact absurd hbc (by simp)
              · simp only [if_neg hzx] at hbc ⊢
                exact ih ys zs hab hbc

lemma nameLe_antisymm : ∀ a b : List Char,
    nameLe a b = true → nameLe b a = true → a = b := by
  intro a
  induction a with
  | nil =>
    intro b _ hba
    cases b with
    | nil => rfl
    | cons y ys => simp [nameLe] at hba
  | cons x xs ih =>
    intro b hab hba
    cases b with
    | nil => simp [nameLe] at hab
    | cons y ys =>
      simp only [nameLe] at hab hba
      by_cases hxy : x < y
      · simp only [if_neg (lt_asymm hxy), if_pos hxy] at hba
        exact absurd hba (by simp)
      · by_cases hyx : y < x
        · simp only [if_neg hxy, if_pos hyx] at hab
          exact absurd hab (by simp)
        · have hxy' : x = y := le_antisymm (not_lt.mp hyx) (not_lt.mp hxy)
          subst hxy'
          simp only [if_neg (lt_irrefl x)] at hab hba
          rw [ih ys hab hba]

lemma fileLe_total (a b : ImageFile) : fileLe a b = true ∨ fileLe b a = true :=
  nameLe_total a.name b.name

lemma fileLe_trans (a b c : ImageFile) :
    fileLe a b = true → fileLe b c = true → fileLe a c = true :=
  nameLe_trans a.name b.name c.name

lemma fileLe_antisymm_name (a b : ImageFile) :
    fileLe a b = true → fileLe b a = true → a.name = b.name :=
  nameLe_antisymm a.name b.name

lemma perm_insertSorted (le : α → α → Bool) (a : α) :
    ∀ l : List α, (insertSorted le a l).Perm (a :: l) := by
  intro l
  induction l with
  | nil => exact List.Perm.refl _
  | cons b bs ih =>
    simp only [insertSorted]
    split
    · exact List.Perm.refl _
    · exact (ih.cons b).trans (List.Perm.swap a b bs)

lemma perm_sortBy (le : α → α → Bool) : ∀ l : List α, (sortBy le l).Perm l := by
  intro l
  induction l with
  | nil => exact List.Perm.refl _
  | cons a as ih =>
    exact (perm_insertSorted le a (sortBy le as)).trans (ih.cons a)

lemma pairwise_insertSorted (le : α → α → Bool)
    (htot : ∀ a b, le a b = true ∨ le b a = true)
    (htrans : ∀ a b c, le a b = true → le b c = true → le a c = true) (a : α) :
    ∀ l : List α, l.Pairwise (fun x y => le x y = true) →
      (insertSorted le a l).Pairwise (fun x y => le x y = true) := by
  intro l
  induction l with
  | nil => intro _; simp [insertSorted]
  | cons b bs ih =>
    intro hp
    rw [List.pairwise_cons] at hp
    simp only [insertSorted]
    split
    next hle =>
      refine List.pairwise_cons.mpr ⟨?_, List.pairwise_cons.mpr ⟨hp.1, hp.2⟩⟩
      intro x hx
      rcases List.mem_cons.mp hx with rfl | hx
      · exact hle
      · exact htrans a b x hle (hp.1 x hx)
    next hle =>
      refine List.pairwise_cons.mpr ⟨?_, ih hp.2⟩
      intro x hx
      have hx' : x ∈ a :: bs := (perm_insertSorted le a bs).mem_iff.mp hx
      rcases List.mem_cons.mp hx' with rfl | hx'
      · rcases htot x b with h1 | h1
        · exact absurd h1 hle
        · exact h1
      · exact hp.1 x hx'

lemma pairwise_sortBy (le : α → α → Bool)
    (htot : ∀ a b, le a b = true ∨ le b a = true)
    (htrans : ∀ a b c, le a b = true → le b c = true → le a c = true) :
    ∀ l : List α, (sortBy le l).Pairwise (fun x y => le x y = true) := by
  intro l
  induction l with
  | nil => simp [sortBy]
  | cons a as ih => exact pairwise_insertSorted le htot htrans a _ ih

lemma sortedImageFiles_perm (files : List ImageFile) :
    (sortedImageFiles files).Perm (files.filter (fun f => isImageFile f.name)) :=
  perm_sortBy fileLe _

lemma sortedImageFiles_pairwise (files : List ImageFile) :
    (sortedImageFiles files).Pairwise (fun a b => fileLe a b = true) :=
  pairwise_sortBy fileLe fileLe_total fileLe_trans _

/-- Two sorted lists of files with pairwise distinct filenames that are
permutations of each other are equal: the sorted order is canonical. -/
lemma eq_of_perm_of_pairwise_fileLe :
    ∀ l₁ l₂ : List ImageFile, l₁.Perm l₂ →
      l₁.Pairwise (fun a b => fileLe a b = true) →
      l₂.Pairwise (fun a b => fileLe a b = true) →
      (l₁.map (fun f => f.name)).Nodup → l₁ = l₂ := by
  intro l₁
  induction l₁ with
  | nil =>
    intro l₂ hp _ _ _
    exact (hp.symm.eq_nil).symm
  | cons a t₁ ih =>
    intro l₂ hp h₁ h₂ hnd
    have hnd' : (∀ x ∈ t₁, ¬x.name = a.name) ∧ (t₁.map (fun f => f.name)).Nodup := by
      simpa using hnd
    cases l₂ with
    | nil => exact absurd hp.eq_nil (by simp)
    | cons b t₂ =>
      have hab : a = b := by
        have ha : a ∈ b :: t₂ := hp.mem_iff.mp (List.mem_cons_self a t₁)
        rcases List.mem_cons.mp ha with h | ha'
        · exact h
        · have hb : b ∈ a :: t₁ := hp.symm.mem_iff.mp (List.mem_cons_self b t₂)
          rcases List.mem_cons.mp hb with h | hb'
          · exact h.symm
          · have hfab : fileLe a b = true := (List.pairwise_cons.mp h₁).1 b hb'
            have hfba : fileLe b a = true := (List.pairwise_cons.mp h₂).1 a ha'
            have hname : a.name = b.name := fileLe_antisymm_name a b hfab hfba
            exact absurd hname.symm (hnd'.1 b hb')
      subst hab
      have ht : t₁ = t₂ :=
        ih t₂ hp.cons_inv (List.Pairwise.of_cons h₁) (List.Pairwise.of_cons h₂) hnd'.2
      rw [ht]

/-! ### The state-independent content of each drawImage call -/

/-- The fields of a placement that do not depend on the cursor state. -/
def placementData (p : Placement) : List Char × ℚ × ℚ × ℕ × ℕ :=
  (p.name, p.w, p.h, p.srcW, p.srcH)

/-- The state-independent placement data the loop body produces for a file. -/
def fileData (f : ImageFile) : List Char × ℚ × ℚ × ℕ × ℕ :=
  (f.name, 2 * inch, targetHeightOf f,
    (preprocessed f).width, (preprocessed f).height)

lemma advanceCursor_placements (pw ph tw th : ℚ) (s : LayoutState) :
    (advanceCursor pw ph tw th s).placements = s.placements := by
  simp only [advanceCursor]
  split
  · split <;> rfl
  · rfl

lemma advanceCursor_page (pw ph tw th : ℚ) (s : LayoutState) :
    (advanceCursor pw ph tw th s).page = s.page ∨
      (advanceCursor pw ph tw th s).page = s.page + 1 := by
  simp only [advanceCursor]
  split
  · split
    · right; rfl
    · left; rfl
  · left; rfl

lemma placeImage_placements (pw ph : ℚ) (s : LayoutState) (f : ImageFile) :
    (placeImage pw ph s f).placements.map placementData =
      s.placements.map placementData ++ [fileData f] := by
  simp only [placeImage, List.map_append, advanceCursor_placements]
  rfl

lemma foldl_placements_data (pw ph : ℚ) :
    ∀ (l : List ImageFile) (s : LayoutState),
      ((l.foldl (placeImage pw ph) s).placements).map placementData =
        s.placements.map placementData ++ l.map fileData := by
  intro l
  induction l with
  | nil => intro s; simp
  | cons f fs ih =>
    intro s
    rw [List.foldl_cons, ih, placeImage_placements]
    simp

/-- The drawImage calls of a run carry exactly the per-file data of the
sorted image files, in sorted order. -/
lemma generate_pdf_placements_data (files : List ImageFile) (page_size : ℚ × ℚ) :
    (generate_pdf files page_size).placements.map placementData =
      (sortedImageFiles files).map fileData := by
  simp only [generate_pdf]
  split
  next h =>
    rw [List.isEmpty_iff] at h
    rw [h]
    rfl
  next h =>
    rw [foldl_placements_data]
    rfl

lemma targetHeightOf_nonneg (f : ImageFile) : 0 ≤ targetHeightOf f := by
  unfold targetHeightOf
  apply div_nonneg
  · apply mul_nonneg (Nat.cast_nonneg _)
    norm_num [inch]
  · exact Nat.cast_nonneg _

/-! ### Positivity of the preprocessed dimensions -/

/-- The PIL contract for a successfully decoded valid image file: positive
pixel dimensions, and `getbbox` returning `None` rather than an empty box
(a non-`None` box has `left < right` and `upper < lower` because it
contains at least one non-zero pixel). -/
def validDecode (f : ImageFile) : Prop :=
  ∀ img, f.decoded = some img →
    (1 ≤ img.width ∧ 1 ≤ img.height) ∧
    ∀ b, img.alphaBbox = some b → b.left < b.right ∧ b.upper < b.lower

lemma preprocessed_pos (f : ImageFile) (h : validDecode f) :
    1 ≤ (preprocessed f).width ∧ 1 ≤ (preprocessed f).height := by
  unfold preprocessed
  cases hf : f.decoded with
  | none => exact ⟨le_refl 1, le_refl 1⟩
  | some img =>
    obtain ⟨⟨hw, hh⟩, hbb⟩ := h img hf
    unfold visibleBBox
    cases htr : img.hasTransparencyChannel with
    | false =>
      simp only [htr, Bool.false_eq_true, if_false, Option.getD_some]
      constructor <;> dsimp <;> omega
    | true =>
      simp only [htr, if_true]
      cases hab : img.alphaBbox with
      | none =>
        simp only [Option.getD_none]
        constructor <;> dsimp <;> omega
      | some b =>
        obtain ⟨hbl, hbu⟩ := hbb b hab
        simp only [Option.getD_some]
        constructor <;> dsimp <;> omega

/-- The layout model is exactly the non-raising fragment of the faithful
preprocessing pipeline: whenever no exception escapes `preprocess_image`,
the layout-side `preprocessed` computes the same output dimensions. -/
lemma preprocessed_agrees (f : RawImageFile) (img : RawPILImage)
    (h : preprocess_image f = some img) :
    (preprocessed (toImageFile f)).width = img.width ∧
      (preprocessed (toImageFile f)).height = img.height := by
  unfold preprocess_image at h
  cases hf : f.opened with
  | none =>
    rw [hf] at h
    dsimp only at h
    simp only [Option.some.injEq] at h
    subst h
    simp [preprocessed, toImageFile, hf]
  | some raw =>
    rw [hf] at h
    dsimp only at h
    cases hg : get_bounding_box_of_visible_area raw with
    | none =>
      rw [hg] at h
      exact absurd h (by simp)
    | some bbox =>
      rw [hg] at h
      dsimp only at h
      by_cases hl : raw.loadFails = true
      · rw [if_pos hl] at h
        exact absurd h (by simp)
      · rw [if_neg hl] at h
        simp only [Option.some.injEq] at h
        subst h
        have hbb : visibleBBox ⟨raw.width, raw.height,
            decide (raw.mode = PILMode.RGBA ∨ raw.mode = PILMode.LA ∨
              (raw.mode = PILMode.P ∧ raw.transparencyInInfo = true)), raw.alphaBbox⟩ = bbox := by
          unfold get_bounding_box_of_visible_area at hg
          unfold visibleBBox
          by_cases hc : raw.mode = PILMode.RGBA ∨ raw.mode = PILMode.LA ∨
              (raw.mode = PILMode.P ∧ raw.transparencyInInfo = true)
          · rw [if_pos hc] at hg
            by_cases hp : raw.mode = PILMode.P
            · rw [if_pos hp] at hg
              exact absurd hg (by simp)
            · rw [if_neg hp, if_neg hl] at hg
              simp only [Option.map, Option.some.injEq] at hg
              simpa [hc] using hg
          · rw [if_neg hc] at hg
            simp only [Option.map, Option.some.injEq, Option.getD_some] at hg
            simpa [hc] using hg
        simp only [preprocessed, toImageFile, hf, Option.map]
        rw [hbb]
        exact ⟨rfl, rfl⟩

/-! ### The no-overlap invariant of the layout loop -/

/-- Invariant of the layout loop: non-negative row height; the placements
drawn so far are pairwise non-intersecting; every placement is on a page
already opened; and a placement on the current page either sits on the
current row (its top edge is at `current_y`, it ends a gutter's width left
of `current_x`, and it is no taller than `max_row_height`) or lies entirely
above the current row by at least the vertical gap. -/
def layoutInv (s : LayoutState) : Prop :=
  0 ≤ s.maxRowHeight ∧
  s.placements.Pairwise (fun p q => ¬overlaps p q) ∧
  ∀ p ∈ s.placements,
    p.page ≤ s.page ∧
    (p.page = s.page →
      (p.y + p.h = s.y ∧ p.x + p.w + (0.2 : ℚ) * inch ≤ s.x ∧ p.h ≤ s.maxRowHeight) ∨
      s.y + (0.2 : ℚ) * inch ≤ p.y)

lemma layoutInv_advanceCursor (pw ph tw th : ℚ) (s : LayoutState) (h : layoutInv s) :
    layoutInv (advanceCursor pw ph tw th s) := by
  obtain ⟨hmax, hpair, hmem⟩ := h
  have hgut : (0 : ℚ) < (0.2 : ℚ) * inch := by norm_num [inch]
  simp only [advanceCursor]
  split
  · split
    · -- new page: the cursor returns to the top-left corner of a fresh page
      dsimp only [layoutInv]
      refine ⟨le_refl 0, hpair, ?_⟩
      intro p hp
      obtain ⟨hpg, _⟩ := hmem p hp
      refine ⟨le_trans hpg (Nat.le_succ _), ?_⟩
      intro hpg'
      omega
    · -- next row on the same page
      dsimp only [layoutInv]
      refine ⟨le_refl 0, hpair, ?_⟩
      intro p hp
      obtain ⟨hpg, hdisj⟩ := hmem p hp
      refine ⟨hpg, ?_⟩
      intro hpg'
      right
      rcases hdisj hpg' with ⟨hy, _, hh⟩ | hy
      · linarith
      · linarith
  · exact ⟨hmax, hpair, hmem⟩

lemma layoutInv_draw (s1 : LayoutState) (nm : List Char) (sw sh : ℕ) (th : ℚ)
    (h : layoutInv s1) :
    layoutInv
      { s1 with
        placements := s1.placements ++
          [⟨nm, s1.page, s1.x, s1.y - th, 2 * inch, th, sw, sh⟩],
        x := s1.x + (2 * inch + (0.2 : ℚ) * inch),
        maxRowHeight := max s1.maxRowHeight th } := by
  obtain ⟨hmax, hpair, hmem⟩ := h
  have hgut : (0 : ℚ) < (0.2 : ℚ) * inch := by norm_num [inch]
  dsimp only [layoutInv]
  refine ⟨le_trans hmax (le_max_left _ _), ?_, ?_⟩
  · rw [List.pairwise_append]
    refine ⟨hpair, by simp, ?_⟩
    intro q hq p' hp'
    rw [List.mem_singleton] at hp'
    subst hp'
    obtain ⟨hqpg, hdisj⟩ := hmem q hq
    intro hov
    obtain ⟨hpg, h1, h2, h3, h4⟩ := hov
    dsimp at hpg h1 h2 h3 h4
    rcases hdisj hpg with ⟨hy, hx, hh⟩ | hy
    · linarith
    · linarith
  · intro p hp
    rw [List.mem_append] at hp
    rcases hp with hp | hp
    · obtain ⟨hpg, hdisj⟩ := hmem p hp
      refine ⟨hpg, ?_⟩
      intro hpg'
      rcases hdisj hpg' with ⟨hy, hx, hh⟩ | hy
      · left
        refine ⟨hy, ?_, le_trans hh (le_max_left _ _)⟩
        have h2inch : (0 : ℚ) ≤ 2 * inch + (0.2 : ℚ) * inch := by norm_num [inch]
        linarith
      · right; exact hy
    · rw [List.mem_singleton] at hp
      subst hp
      refine ⟨le_refl _, ?_⟩
      intro _
      left
      dsimp
      refine ⟨by ring, le_of_eq (by ring), le_max_right _ _⟩

lemma layoutInv_placeImage (pw ph : ℚ) (s : LayoutState) (f : ImageFile)
    (h : layoutInv s) : layoutInv (placeImage pw ph s f) :=
  layoutInv_draw (advanceCursor pw ph (2 * inch) (targetHeightOf f) s)
    f.name (preprocessed f).width (preprocessed f).height (targetHeightOf f)
    (layoutInv_advanceCursor pw ph (2 * inch) (targetHeightOf f) s h)

lemma layoutInv_foldl (pw ph : ℚ) :
    ∀ (l : List ImageFile) (s : LayoutState),
      layoutInv s → layoutInv (l.foldl (placeImage pw ph) s) := by
  intro l
  induction l with
  | nil => intro s h; exact h
  | cons f fs ih =>
    intro s h
    exact ih _ (layoutInv_placeImage pw ph s f h)

/-! ### The margin invariant of the layout loop -/

/-- Margin invariant: the cursor is right of the left margin and below the
top margin, and every placement drawn so far respects the left, right and
top margins (`x ≥ inch`, `x + w ≤ page_width - inch`,
`y + h ≤ page_height - inch`). -/
def boundsInv (pw ph : ℚ) (s : LayoutState) : Prop :=
  inch ≤ s.x ∧ s.y ≤ ph - inch ∧ 0 ≤ s.maxRowHeight ∧
  ∀ p ∈ s.placements, inch ≤ p.x ∧ p.x + p.w ≤ pw - inch ∧ p.y + p.h ≤ ph - inch

lemma boundsInv_advanceCursor (pw ph tw th : ℚ) (s : LayoutState)
    (h : boundsInv pw ph s) : boundsInv pw ph (advanceCursor pw ph tw th s) := by
  obtain ⟨hx, hy, hmax, hmem⟩ := h
  have hgut : (0 : ℚ) < (0.2 : ℚ) * inch := by norm_num [inch]
  simp only [advanceCursor]
  split
  · split
    · exact ⟨le_refl _, le_refl _, le_refl _, hmem⟩
    · dsimp only [boundsInv]
      refine ⟨le_refl _, by linarith, le_refl _, hmem⟩
  · exact ⟨hx, hy, hmax, hmem⟩

/-- After the cursor advance the image is about to be drawn at `current_x`;
on a page at least 288 points (4 inches) wide the drawn image never crosses
the right margin, because either it fitted the current row or the cursor
was reset to the left margin. -/
lemma advanceCursor_fit (pw ph th : ℚ) (s : LayoutState) (hpw : 288 ≤ pw) :
    (advanceCursor pw ph (2 * inch) th s).x + 2 * inch ≤ pw - inch := by
  simp only [advanceCursor]
  split
  · split
    · dsimp only
      norm_num [inch]
      linarith
    · dsimp only
      norm_num [inch]
      linarith
  next hfit =>
    have := not_lt.mp hfit
    linarith

lemma boundsInv_placeImage (pw ph : ℚ) (s : LayoutState) (f : ImageFile)
    (hpw : 288 ≤ pw) (h : boundsInv pw ph s) :
    boundsInv pw ph (placeImage pw ph s f) := by
  obtain ⟨hx1, hy1, hmax1, hmem1⟩ :=
    boundsInv_advanceCursor pw ph (2 * inch) (targetHeightOf f) s h
  have hfit := advanceCursor_fit pw ph (targetHeightOf f) s hpw
  simp only [placeImage]
  dsimp only [boundsInv]
  have h2g : (0 : ℚ) ≤ 2 * inch + (0.2 : ℚ) * inch := by norm_num [inch]
  refine ⟨by linarith, hy1, le_trans hmax1 (le_max_left _ _), ?_⟩
  intro p hp
  rw [List.mem_append] at hp
  rcases hp with hp | hp
  · exact hmem1 p hp
  · rw [List.mem_singleton] at hp
    subst hp
    dsimp only
    refine ⟨hx1, hfit, ?_⟩
    have heq : (advanceCursor pw ph (2 * inch) (targetHeightOf f) s).y -
        targetHeightOf f + targetHeightOf f =
        (advanceCursor pw ph (2 * inch) (targetHeightOf f) s).y := by ring
    linarith

lemma boundsInv_foldl (pw ph : ℚ) (hpw : 288 ≤ pw) :
    ∀ (l : List ImageFile) (s : LayoutState),
      boundsInv pw ph s → boundsInv pw ph (l.foldl (placeImage pw ph) s) := by
  intro l
  induction l with
  | nil => intro s h; exact h
  | cons f fs ih =>
    intro s h
    exact ih _ (boundsInv_placeImage pw ph s f hpw h)

/-! ## The claims -/

/-- claim C2: for every input listing and page size, any two distinct
placements drawn on the same page have non-intersecting axis-aligned
rectangles. -/
theorem claim2_no_overlap (files : List ImageFile) (page_size : ℚ × ℚ) :
    (generate_pdf files page_size).placements.Pairwise fun p q => ¬overlaps p q := by
  simp only [generate_pdf]
  split
  · exact List.Pairwise.nil
  · refine (layoutInv_foldl page_size.1 page_size.2 _ _ ?_).2.1
    exact ⟨le_refl 0, List.Pairwise.nil, fun p hp => absurd hp (List.not_mem_nil p)⟩

/-- claim C3 counterexample: a single tall 1×100-pixel image on the A4 page
is scaled to 2in × 200in and drawn with its bottom edge far below the
bottom margin (`y < inch`), so not every placement lies within the page
margins. -/
theorem claim3_counterexample :
    ∃ p ∈ (generate_pdf [⟨"a.png".data, some ⟨1, 100, false, none⟩⟩] PAGE_SIZE).placements,
      p.y < inch := by
  have hs : sortedImageFiles [⟨"a.png".data, some ⟨1, 100, false, none⟩⟩] =
      [⟨"a.png".data, some ⟨1, 100, false, none⟩⟩] := by decide
  have h : (generate_pdf [⟨"a.png".data, some ⟨1, 100, false, none⟩⟩] PAGE_SIZE).placements =
      [⟨"a.png".data, 0, 72, 106920 / 127 - 14472, 144, 14400, 1, 100⟩] := by
    simp only [generate_pdf, hs, List.isEmpty, List.foldl, placeImage, advanceCursor,
      targetHeightOf, preprocessed, visibleBBox]
    norm_num [inch, PAGE_SIZE, portrait, A4, mm]
  rw [h]
  exact ⟨_, List.mem_singleton_self _, by norm_num [inch]⟩

/-- claim C3 amended: on any page at least 288 points (4 inches) wide —
in particular on A4 — every placement respects the left, right and top
margins (`x ≥ 1in`, `x + width ≤ pageWidth − 1in`,
`y + height ≤ pageHeight − 1in`); the bottom-margin part of the claim is
false (see the counterexample). -/
theorem claim3_amended_bounds (files : List ImageFile) (pw ph : ℚ) (hpw : 288 ≤ pw) :
    ∀ p ∈ (generate_pdf files (pw, ph)).placements,
      inch ≤ p.x ∧ p.x + p.w ≤ pw - inch ∧ p.y + p.h ≤ ph - inch := by
  simp only [generate_pdf]
  split
  · intro p hp
    exact absurd hp (List.not_mem_nil p)
  · intro p hp
    have hinit : boundsInv pw ph ⟨inch, ph - inch, 0, 0, []⟩ :=
      ⟨le_refl _, le_refl _, le_refl _, fun q hq => absurd hq (List.not_mem_nil q)⟩
    exact (boundsInv_foldl pw ph hpw _ _ hinit).2.2.2 p hp

/-- claim C3 amended, witness: the margin bounds instantiated on a concrete
one-image run on a US letter page. -/
theorem claim3_amended_bounds_witness :
    inch ≤ (72 : ℚ) ∧ (72 : ℚ) + 144 ≤ 612 - inch ∧ (576 : ℚ) + 144 ≤ 792 - inch := by
  have hs : sortedImageFiles [⟨"a.png".data, some ⟨1, 1, false, none⟩⟩] =
      [⟨"a.png".data, some ⟨1, 1, false, none⟩⟩] := by decide
  have h : (generate_pdf [⟨"a.png".data, some ⟨1, 1, false, none⟩⟩] ((612 : ℚ), (792 : ℚ))).placements =
      [⟨"a.png".data, 0, 72, 576, 144, 144, 1, 1⟩] := by
    simp only [generate_pdf, hs, List.isEmpty, List.foldl, placeImage, advanceCursor,
      targetHeightOf, preprocessed, visibleBBox]
    norm_num [inch]
  have hb := claim3_amended_bounds [⟨"a.png".data, some ⟨1, 1, false, none⟩⟩] 612 792
    (by norm_num) ⟨"a.png".data, 0, 72, 576, 144, 144, 1, 1⟩
    (by rw [h]; exact List.mem_singleton_self _)
  simpa using hb

/-- claim C9: when the listing contains no image files at all, the run
still produces a saved document with no placements and exactly one page. -/
theorem claim9_empty_input (files : List ImageFile) (page_size : ℚ × ℚ)
    (h : files.filter (fun f => isImageFile f.name) = []) :
    generate_pdf files page_size = { placements := [], pageCount := 1, saved := true } := by
  have hs : sortedImageFiles files = [] := by
    rw [sortedImageFiles, h]
    rfl
  simp [generate_pdf, hs]

/-- claim C9, witness: a directory containing only a non-image file yields
the empty one-page saved document. -/
theorem claim9_empty_input_witness :
    generate_pdf [⟨"notes.txt".data, none⟩] PAGE_SIZE =
      { placements := [], pageCount := 1, saved := true } :=
  claim9_empty_input [⟨"notes.txt".data, none⟩] PAGE_SIZE (by decide)

/-- claim C4: determinism over directory enumeration: two listings of the
same set of image files (any permutation; filenames distinct, as in a real
directory) produce identical results — same placement order, same
coordinates, same page count. -/
theorem claim4_determinism (files₁ files₂ : List ImageFile) (page_size : ℚ × ℚ)
    (hperm : files₁.Perm files₂)
    (hnodup : (files₁.map (fun f => f.name)).Nodup) :
    generate_pdf files₁ page_size = generate_pdf files₂ page_size := by
  have hsort : sortedImageFiles files₁ = sortedImageFiles files₂ := by
    apply eq_of_perm_of_pairwise_fileLe
    · exact (sortedImageFiles_perm files₁).trans
        ((hperm.filter _).trans (sortedImageFiles_perm files₂).symm)
    · exact sortedImageFiles_pairwise files₁
    · exact sortedImageFiles_pairwise files₂
    · have h1 : ((sortedImageFiles files₁).map (fun f => f.name)).Perm
          ((files₁.filter (fun f => isImageFile f.name)).map (fun f => f.name)) :=
        (sortedImageFiles_perm files₁).map _
      rw [h1.nodup_iff]
      exact ((List.filter_sublist files₁).map _).nodup hnodup
  simp only [generate_pdf, hsort]

/-- claim C4, witness: swapping the enumeration order of two concrete image
files does not change the generated document. -/
theorem claim4_determinism_witness :
    generate_pdf
        [⟨"b.png".data, some ⟨1, 2, false, none⟩⟩, ⟨"a.png".data, some ⟨2, 1, false, none⟩⟩]
        PAGE_SIZE =
      generate_pdf
        [⟨"a.png".data, some ⟨2, 1, false, none⟩⟩, ⟨"b.png".data, some ⟨1, 2, false, none⟩⟩]
        PAGE_SIZE :=
  claim4_determinism _ _ PAGE_SIZE (List.Perm.swap _ _ _) (by decide)

/-- claim C1 counterexample: with `a.png` a 2×1 image and `b.png` a 1×2
image, the run places the short `a.png` before the tall `b.png`, so the
placements are not decided in order of decreasing height: the loop
processes files in filename order, ignoring dimensions. -/
theorem claim1_counterexample :
    ((generate_pdf [⟨"a.png".data, some ⟨2, 1, false, none⟩⟩,
          ⟨"b.png".data, some ⟨1, 2, false, none⟩⟩] PAGE_SIZE).placements.map
        (fun p => p.srcH)) = [1, 2] ∧
      ¬((generate_pdf [⟨"a.png".data, some ⟨2, 1, false, none⟩⟩,
          ⟨"b.png".data, some ⟨1, 2, false, none⟩⟩] PAGE_SIZE).placements.map
        (fun p => p.srcH)).Pairwise (fun a b => b ≤ a) := by
  have hsrc : ((generate_pdf [⟨"a.png".data, some ⟨2, 1, false, none⟩⟩,
      ⟨"b.png".data, some ⟨1, 2, false, none⟩⟩] PAGE_SIZE).placements.map
      (fun p => p.srcH)) =
      (sortedImageFiles [⟨"a.png".data, some ⟨2, 1, false, none⟩⟩,
        ⟨"b.png".data, some ⟨1, 2, false, none⟩⟩]).map
        (fun f => (preprocessed f).height) := by
    have := congrArg (List.map (fun t : List Char × ℚ × ℚ × ℕ × ℕ => t.2.2.2.2))
      (generate_pdf_placements_data [⟨"a.png".data, some ⟨2, 1, false, none⟩⟩,
        ⟨"b.png".data, some ⟨1, 2, false, none⟩⟩] PAGE_SIZE)
    simpa [List.map_map, Function.comp, placementData, fileData] using this
  constructor
  · rw [hsrc]; decide
  · rw [hsrc]; decide

/-- claim C1 amended: the placements are decided in ascending code-point
(lexicographic) order of the filtered filenames — the order produced by
`sorted()` on the directory listing — not by rectangle height. -/
theorem claim1_amended_filename_order (files : List ImageFile) (page_size : ℚ × ℚ) :
    ((generate_pdf files page_size).placements.map (fun p => p.name)).Pairwise
        (fun a b => nameLe a b = true) ∧
      ((generate_pdf files page_size).placements.map (fun p => p.name)).Perm
        ((files.filter (fun f => isImageFile f.name)).map (fun f => f.name)) := by
  have hnames : (generate_pdf files page_size).placements.map (fun p => p.name) =
      (sortedImageFiles files).map (fun f => f.name) := by
    have := congrArg (List.map (fun t : List Char × ℚ × ℚ × ℕ × ℕ => t.1))
      (generate_pdf_placements_data files page_size)
    simpa [List.map_map, Function.comp, placementData, fileData] using this
  constructor
  · rw [hnames]
    exact (sortedImageFiles_pairwise files).map _ (fun a b h => h)
  · rw [hnames]
    exact (sortedImageFiles_perm files).map _

/-- claim C5: a decode failure never aborts the batch: the failing file is
preprocessed to the 1×1 dummy image and still placed (drawn 2in × 2in),
every image file still yields exactly one placement, and the document is
still saved. -/
theorem claim5_decode_failure_absorbed (files : List ImageFile) (page_size : ℚ × ℚ)
    (bad : ImageFile) (hmem : bad ∈ files) (hfail : bad.decoded = none)
    (hname : isImageFile bad.name = true) :
    (generate_pdf files page_size).saved = true ∧
      (generate_pdf files page_size).placements.length =
        (files.filter (fun f => isImageFile f.name)).length ∧
      ∃ p ∈ (generate_pdf files page_size).placements,
        p.name = bad.name ∧ p.srcW = 1 ∧ p.srcH = 1 ∧ p.w = 2 * inch ∧ p.h = 2 * inch := by
  have hpre : preprocessed bad = ⟨1, 1, false, none⟩ := by
    unfold preprocessed
    rw [hfail]
  have hth : targetHeightOf bad = 2 * inch := by
    unfold targetHeightOf
    rw [hpre]
    norm_num
  refine ⟨?_, ?_, ?_⟩
  · simp only [generate_pdf]
    split <;> rfl
  · have hdata := congrArg List.length (generate_pdf_placements_data files page_size)
    simp only [List.length_map] at hdata
    rw [hdata, (sortedImageFiles_perm files).length_eq]
  · have hbad : bad ∈ sortedImageFiles files :=
      (sortedImageFiles_perm files).mem_iff.mpr (List.mem_filter.mpr ⟨hmem, hname⟩)
    have hmem2 : fileData bad ∈ (generate_pdf files page_size).placements.map placementData := by
      rw [generate_pdf_placements_data]
      exact List.mem_map_of_mem _ hbad
    obtain ⟨p, hp, hpd⟩ := List.mem_map.mp hmem2
    refine ⟨p, hp, ?_⟩
    simp only [placementData, fileData, hpre, hth, Prod.mk.injEq] at hpd
    obtain ⟨h1, h2, h3, h4, h5⟩ := hpd
    exact ⟨h1, h4, h5, h2, h3⟩

/-- claim C5, witness: a directory with one good image and one undecodable
`bad.png`: the run still saves, places both files, and draws the bad one as
the 2in × 2in rendering of the 1×1 dummy. -/
theorem claim5_decode_failure_absorbed_witness :
    (generate_pdf [⟨"a.png".data, some ⟨2, 1, false, none⟩⟩, ⟨"bad.png".data, none⟩]
        PAGE_SIZE).saved = true ∧
      (generate_pdf [⟨"a.png".data, some ⟨2, 1, false, none⟩⟩, ⟨"bad.png".data, none⟩]
          PAGE_SIZE).placements.length =
        (([⟨"a.png".data, some ⟨2, 1, false, none⟩⟩,
            ⟨"bad.png".data, none⟩] : List ImageFile).filter
          (fun f => isImageFile f.name)).length ∧
      ∃ p ∈ (generate_pdf [⟨"a.png".data, some ⟨2, 1, false, none⟩⟩,
          ⟨"bad.png".data, none⟩] PAGE_SIZE).placements,
        p.name = "bad.png".data ∧ p.srcW = 1 ∧ p.srcH = 1 ∧ p.w = 2 * inch ∧ p.h = 2 * inch :=
  claim5_decode_failure_absorbed
    [⟨"a.png".data, some ⟨2, 1, false, none⟩⟩, ⟨"bad.png".data, none⟩] PAGE_SIZE
    ⟨"bad.png".data, none⟩ (by decide) rfl (by decide)

/-- claim C6 counterexample: a 1440×720-pixel image (20in × 10in at 72
pixels per inch) on the US letter page (usable width 6.5in) is drawn 2
inches wide (144 points), not clamped to the 6.5-inch usable width: no
clamping to the usable width exists in the code. -/
theorem claim6_counterexample :
    ((generate_pdf [⟨"r.png".data, some ⟨1440, 720, false, none⟩⟩] letterPage).placements.map
        (fun p => p.w)) = [144] ∧ (144 : ℚ) ≠ 6.5 * inch := by
  constructor
  · have hs : sortedImageFiles [⟨"r.png".data, some ⟨1440, 720, false, none⟩⟩] =
        [⟨"r.png".data, some ⟨1440, 720, false, none⟩⟩] := by decide
    simp only [generate_pdf, hs, List.isEmpty, List.foldl, placeImage, advanceCursor,
      targetHeightOf, preprocessed, visibleBBox]
    norm_num [inch, letterPage]
  · norm_num [inch]

/-- claim C6 amended: an over-wide rectangle is not clamped to the usable
width; like every image it is scaled to the fixed 2-inch target width: the
1440×720 image on the letter page is drawn at `(72, 648)` with width 144
points (2in) and height 72 points (1in), aspect preserved, with no clamped
flag anywhere in the result. -/
theorem claim6_amended_no_clamp :
    (generate_pdf [⟨"r.png".data, some ⟨1440, 720, false, none⟩⟩] letterPage).placements =
      [⟨"r.png".data, 0, 72, 648, 144, 72, 1440, 720⟩] := by
  have hs : sortedImageFiles [⟨"r.png".data, some ⟨1440, 720, false, none⟩⟩] =
      [⟨"r.png".data, some ⟨1440, 720, false, none⟩⟩] := by decide
  simp only [generate_pdf, hs, List.isEmpty, List.foldl, placeImage, advanceCursor,
    targetHeightOf, preprocessed, visibleBBox]
  norm_num [inch, letterPage]

/-- claim C7 counterexample: for the portrait 100×200 image the larger
placed dimension is the height, 288 points, which differs from the only
configured cap (the 2-inch = 144-point target width): the sizing step does
not make the larger dimension equal the cap. -/
theorem claim7_counterexample :
    ((generate_pdf [⟨"p.png".data, some ⟨100, 200, false, none⟩⟩] PAGE_SIZE).placements.map
        (fun p => max p.w p.h)) = [288] ∧ (288 : ℚ) ≠ 2 * inch := by
  constructor
  · have hs : sortedImageFiles [⟨"p.png".data, some ⟨100, 200, false, none⟩⟩] =
        [⟨"p.png".data, some ⟨100, 200, false, none⟩⟩] := by decide
    simp only [generate_pdf, hs, List.isEmpty, List.foldl, placeImage, advanceCursor,
      targetHeightOf, preprocessed, visibleBBox]
    norm_num [inch, PAGE_SIZE, portrait, A4, mm, max_def]
  · norm_num [inch]

/-- claim C7 amended: the sizing step always makes the *width* equal the
2-inch target and scales the height proportionally
(`h = srcH * 2in / srcW`); the larger dimension equals the cap only for
landscape-or-square images. -/
theorem claim7_amended_fixed_scale (files : List ImageFile) (page_size : ℚ × ℚ) :
    ∀ p ∈ (generate_pdf files page_size).placements,
      p.w = 2 * inch ∧ p.h = (p.srcH : ℚ) * (2 * inch) / (p.srcW : ℚ) := by
  intro p hp
  have hmem : placementData p ∈ (sortedImageFiles files).map fileData := by
    rw [← generate_pdf_placements_data files page_size]
    exact List.mem_map_of_mem _ hp
  obtain ⟨f, hf, hfd⟩ := List.mem_map.mp hmem
  simp only [placementData, fileData, Prod.mk.injEq] at hfd
  obtain ⟨hn, hw, hh, hsw, hsh⟩ := hfd
  refine ⟨hw.symm, ?_⟩
  rw [← hh, ← hsw, ← hsh]
  rfl

/-- claim C7 amended, witness: the 3×4 image is drawn 144 points wide and
`4 * 144 / 3 = 192` points tall. -/
theorem claim7_amended_fixed_scale_witness :
    (144 : ℚ) = 2 * inch ∧ (192 : ℚ) = ((4 : ℕ) : ℚ) * (2 * inch) / ((3 : ℕ) : ℚ) := by
  have hs : sortedImageFiles [⟨"s.png".data, some ⟨3, 4, false, none⟩⟩] =
      [⟨"s.png".data, some ⟨3, 4, false, none⟩⟩] := by decide
  have h : (generate_pdf [⟨"s.png".data, some ⟨3, 4, false, none⟩⟩] PAGE_SIZE).placements =
      [⟨"s.png".data, 0, 72, 106920 / 127 - 264, 144, 192, 3, 4⟩] := by
    simp only [generate_pdf, hs, List.isEmpty, List.foldl, placeImage, advanceCursor,
      targetHeightOf, preprocessed, visibleBBox]
    norm_num [inch, PAGE_SIZE, portrait, A4, mm]
  have hw := claim7_amended_fixed_scale [⟨"s.png".data, some ⟨3, 4, false, none⟩⟩] PAGE_SIZE
    ⟨"s.png".data, 0, 72, 106920 / 127 - 264, 144, 192, 3, 4⟩
    (by rw [h]; exact List.mem_singleton_self _)
  simpa using hw

/-- claim C8: for every placement of a run over valid image files, the
ratio of drawn width to drawn height equals the width-to-height ratio of
the preprocessed source rectangle (exactly, in the rational model, hence
within 1e-6). All placements are non-clamped: no clamping exists in the
code. -/
theorem claim8_aspect_preserved (files : List ImageFile) (page_size : ℚ × ℚ)
    (hvalid : ∀ f ∈ files, validDecode f) :
    ∀ p ∈ (generate_pdf files page_size).placements,
      |p.w / p.h - (p.srcW : ℚ) / (p.srcH : ℚ)| < 1 / 1000000 := by
  intro p hp
  have hmem : placementData p ∈ (sortedImageFiles files).map fileData := by
    rw [← generate_pdf_placements_data files page_size]
    exact List.mem_map_of_mem _ hp
  obtain ⟨f, hf, hfd⟩ := List.mem_map.mp hmem
  have hffiles : f ∈ files :=
    List.mem_of_mem_filter ((sortedImageFiles_perm files).mem_iff.mp hf)
  obtain ⟨hwpos, hhpos⟩ := preprocessed_pos f (hvalid f hffiles)
  have hW : (0 : ℚ) < ((preprocessed f).width : ℚ) := by exact_mod_cast hwpos
  have hH : (0 : ℚ) < ((preprocessed f).height : ℚ) := by exact_mod_cast hhpos
  simp only [placementData, fileData, Prod.mk.injEq] at hfd
  obtain ⟨hn, hw, hh, hsw, hsh⟩ := hfd
  have hratio : p.w / p.h = (p.srcW : ℚ) / (p.srcH : ℚ) := by
    rw [← hw, ← hh, ← hsw, ← hsh]
    unfold targetHeightOf
    have hi : (2 : ℚ) * inch ≠ 0 := by norm_num [inch]
    field_simp
    ring
  rw [hratio, sub_self, abs_zero]
  norm_num

/-- claim C8, witness: the 2×1 image is drawn 144 × 72, and
`|144/72 - 2/1| = 0 < 1e-6`. -/
theorem claim8_aspect_preserved_witness :
    |(144 : ℚ) / 72 - ((2 : ℕ) : ℚ) / ((1 : ℕ) : ℚ)| < 1 / 1000000 := by
  have hval : ∀ f ∈ [(⟨"a.png".data, some ⟨2, 1, false, none⟩⟩ : ImageFile)], validDecode f := by
    intro f hf
    rw [List.mem_singleton] at hf
    subst hf
    intro img himg
    simp only [Option.some.injEq] at himg
    subst himg
    refine ⟨⟨by norm_num, by norm_num⟩, ?_⟩
    intro b hb
    simp at hb
  have hs : sortedImageFiles [⟨"a.png".data, some ⟨2, 1, false, none⟩⟩] =
      [⟨"a.png".data, some ⟨2, 1, false, none⟩⟩] := by decide
  have h : (generate_pdf [⟨"a.png".data, some ⟨2, 1, false, none⟩⟩] PAGE_SIZE).placements =
      [⟨"a.png".data, 0, 72, 106920 / 127 - 144, 144, 72, 2, 1⟩] := by
    simp only [generate_pdf, hs, List.isEmpty, List.foldl, placeImage, advanceCursor,
      targetHeightOf, preprocessed, visibleBBox]
    norm_num [inch, PAGE_SIZE, portrait, A4, mm]
  have hc := claim8_aspect_preserved [⟨"a.png".data, some ⟨2, 1, false, none⟩⟩] PAGE_SIZE hval
    ⟨"a.png".data, 0, 72, 106920 / 127 - 144, 144, 72, 2, 1⟩
    (by rw [h]; exact List.mem_singleton_self _)
  simpa using hc

/-- The PIL contract for a file `Image.open` accepts: the header dimensions
are positive, and a non-`None` alpha bounding box has `left < right` and
`upper < lower` because it contains at least one non-zero pixel. -/
def validRawFile (f : RawImageFile) : Prop :=
  ∀ raw, f.opened = some raw →
    (1 ≤ raw.width ∧ 1 ≤ raw.height) ∧
    ∀ b, raw.alphaBbox = some b → b.left < b.right ∧ b.upper < b.lower

/-- claim C10 counterexample: `preprocess_image` is not total.  For a
`'P'`-mode image with `'transparency'` in its info — a combination line 22
explicitly admits — `getchannel('A')` at line 24 raises `ValueError`
outside the `try` (which covers only `Image.open`); and for an image whose
lazy pixel decode fails, the exception escapes at `crop`/load (line 51).
In both cases no image is returned at all. -/
theorem claim10_counterexample :
    preprocess_image
        ⟨"p.png".data, some ⟨10, 10, PILMode.P, true, some ⟨1, 1, 9, 9⟩, false⟩⟩ = none ∧
      preprocess_image
        ⟨"t.jpg".data, some ⟨10, 10, PILMode.other, false, none, true⟩⟩ = none := by
  exact ⟨rfl, rfl⟩

/-- claim C10 amended: the sizer stage is not total — `ValueError` from
`getchannel('A')` on a `'P'`-mode image with transparency, or a pixel
decode failure at `crop`/load, escapes `preprocess_image` (and the loop
then skips the file) — but whenever `preprocess_image` does return an
image, that image has width ≥ 1 and height ≥ 1 under the PIL contract
(non-`None` alpha bbox non-degenerate, falling back to the full image or
the 1×1 dummy), so the division by the width at line 102 never divides by
zero for any image that is actually placed. -/
theorem claim10_amended_positive_when_returns (f : RawImageFile) (h : validRawFile f)
    (img : RawPILImage) (hret : preprocess_image f = some img) :
    1 ≤ img.width ∧ 1 ≤ img.height ∧ ((img.width : ℚ) ≠ 0) := by
  have hpos : 1 ≤ img.width ∧ 1 ≤ img.height := by
    unfold preprocess_image at hret
    cases hf : f.opened with
    | none =>
      rw [hf] at hret
      dsimp only at hret
      simp only [Option.some.injEq] at hret
      subst hret
      exact ⟨le_refl 1, le_refl 1⟩
    | some raw =>
      rw [hf] at hret
      dsimp only at hret
      obtain ⟨⟨hw, hh⟩, hbb⟩ := h raw hf
      cases hg : get_bounding_box_of_visible_area raw with
      | none =>
        rw [hg] at hret
        exact absurd hret (by simp)
      | some bbox =>
        rw [hg] at hret
        dsimp only at hret
        by_cases hl : raw.loadFails = true
        · rw [if_pos hl] at hret
          exact absurd hret (by simp)
        · rw [if_neg hl] at hret
          simp only [Option.some.injEq] at hret
          subst hret
          unfold get_bounding_box_of_visible_area at hg
          by_cases hc : raw.mode = PILMode.RGBA ∨ raw.mode = PILMode.LA ∨
              (raw.mode = PILMode.P ∧ raw.transparencyInInfo = true)
          · rw [if_pos hc] at hg
            by_cases hp : raw.mode = PILMode.P
            · rw [if_pos hp] at hg
              exact absurd hg (by simp)
            · rw [if_neg hp, if_neg hl] at hg
              simp only [Option.map, Option.some.injEq] at hg
              cases hab : raw.alphaBbox with
              | none =>
                rw [hab] at hg
                simp only [Option.getD_none] at hg
                subst hg
                unfold crop
                constructor <;> dsimp <;> omega
              | some b =>
                obtain ⟨hbl, hbu⟩ := hbb b hab
                rw [hab] at hg
                simp only [Option.getD_some] at hg
                subst hg
                unfold crop
                constructor <;> dsimp <;> omega
          · rw [if_neg hc] at hg
            simp only [Option.map, Option.some.injEq, Option.getD_some] at hg
            subst hg
            unfold crop
            constructor <;> dsimp <;> omega
  exact ⟨hpos.1, hpos.2, Nat.cast_ne_zero.mpr (Nat.one_le_iff_ne_zero.mp hpos.1)⟩

/-- claim C10 amended, witness: a 10×8 RGBA image whose alpha bounding box
is `(2, 1, 5, 4)` preprocesses without an exception to a 3×3 image with
non-zero width. -/
theorem claim10_amended_positive_when_returns_witness :
    1 ≤ (3 : ℕ) ∧ 1 ≤ (3 : ℕ) ∧ (((3 : ℕ) : ℚ) ≠ 0) :=
  claim10_amended_positive_when_returns
    ⟨"t.png".data, some ⟨10, 8, PILMode.RGBA, false, some ⟨2, 1, 5, 4⟩, false⟩⟩
    (by
      intro raw hraw
      simp only [Option.some.injEq] at hraw
      subst hraw
      refine ⟨⟨by norm_num, by norm_num⟩, ?_⟩
      intro b hb
      simp only [Option.some.injEq] at hb
      subst hb
      exact ⟨by norm_num, by norm_num⟩)
    ⟨3, 3, PILMode.RGBA, false, some ⟨2, 1, 5, 4⟩, false⟩
    (by decide)

end ImagePack
